import Mathlib

/-!
Shallow embedding of `src/scripts/rocket_simulator.py` (repository
LorBordin/lyskamm) in Lean 4, together with theorems settling the claims
of the specification against the code.

Modelling conventions:
* Python floats are modelled as exact rationals (`ℚ`); all of the
  program's arithmetic on them is field arithmetic, so every algebraic
  identity below is the exact-arithmetic content of the code.
* Fallible Python code is modelled with `Except String`/`Option`; a
  Python exception is an `Except.error` carrying the exception's name.
* `np.exp` (used only inside `drag_force`) and `np.pi` (used only to
  build `area`) are transcendental, so they are taken as parameters
  (`expF`, `piA`): every theorem below quantifies over them or never
  evaluates them, exactly as the underlying runs never evaluate them.
-/

/-! ### Multi-encoding file reading (`EngineParser.parse`, lines 20-27)

The bytes of a file are a `List ℕ`; a decoder maps them to the list of
decoded code points, `none` modelling a `UnicodeDecodeError`.
-/

/-- Python's strict UTF-8 decoder: bytes to code points.  Rejects stray
continuation bytes, overlong encodings, surrogates and code points above
U+10FFFF, exactly as CPython's `utf-8` codec does. -/
def utf8Decode : List ℕ → Option (List ℕ)
  | [] => some []
  | b :: rest =>
    if b ≤ 127 then (utf8Decode rest).map (fun cs => b :: cs)
    else if 194 ≤ b ∧ b ≤ 223 then
      match rest with
      | b1 :: rest1 =>
        if 128 ≤ b1 ∧ b1 ≤ 191 then
          (utf8Decode rest1).map (fun cs => ((b - 192) * 64 + (b1 - 128)) :: cs)
        else none
      | [] => none
    else if b = 224 then
      match rest with
      | b1 :: b2 :: rest2 =>
        if (160 ≤ b1 ∧ b1 ≤ 191) ∧ (128 ≤ b2 ∧ b2 ≤ 191) then
          (utf8Decode rest2).map
            (fun cs => ((b - 224) * 4096 + (b1 - 128) * 64 + (b2 - 128)) :: cs)
        else none
      | _ => none
    else if (225 ≤ b ∧ b ≤ 236) ∨ (238 ≤ b ∧ b ≤ 239) then
      match rest with
      | b1 :: b2 :: rest2 =>
        if (128 ≤ b1 ∧ b1 ≤ 191) ∧ (128 ≤ b2 ∧ b2 ≤ 191) then
          (utf8Decode rest2).map
            (fun cs => ((b - 224) * 4096 + (b1 - 128) * 64 + (b2 - 128)) :: cs)
        else none
      | _ => none
    else if b = 237 then
      match rest with
      | b1 :: b2 :: rest2 =>
        if (128 ≤ b1 ∧ b1 ≤ 159) ∧ (128 ≤ b2 ∧ b2 ≤ 191) then
          (utf8Decode rest2).map
            (fun cs => ((b - 224) * 4096 + (b1 - 128) * 64 + (b2 - 128)) :: cs)
        else none
      | _ => none
    else if b = 240 then
      match rest with
      | b1 :: b2 :: b3 :: rest3 =>
        if (144 ≤ b1 ∧ b1 ≤ 191) ∧ (128 ≤ b2 ∧ b2 ≤ 191) ∧ (128 ≤ b3 ∧ b3 ≤ 191) then
          (utf8Decode rest3).map
            (fun cs =>
              ((b - 240) * 262144 + (b1 - 128) * 4096 + (b2 - 128) * 64 + (b3 - 128)) :: cs)
        else none
      | _ => none
    else if 241 ≤ b ∧ b ≤ 243 then
      match rest with
      | b1 :: b2 :: b3 :: rest3 =>
        if (128 ≤ b1 ∧ b1 ≤ 191) ∧ (128 ≤ b2 ∧ b2 ≤ 191) ∧ (128 ≤ b3 ∧ b3 ≤ 191) then
          (utf8Decode rest3).map
            (fun cs =>
              ((b - 240) * 262144 + (b1 - 128) * 4096 + (b2 - 128) * 64 + (b3 - 128)) :: cs)
        else none
      | _ => none
    else if b = 244 then
      match rest with
      | b1 :: b2 :: b3 :: rest3 =>
        if (128 ≤ b1 ∧ b1 ≤ 143) ∧ (128 ≤ b2 ∧ b2 ≤ 191) ∧ (128 ≤ b3 ∧ b3 ≤ 191) then
          (utf8Decode rest3).map
            (fun cs =>
              ((b - 240) * 262144 + (b1 - 128) * 4096 + (b2 - 128) * 64 + (b3 - 128)) :: cs)
        else none
      | _ => none
    else none

/-- The `latin-1` (= `iso-8859-1`) codec: every byte decodes to the code
point of the same value; it never fails on genuine bytes. -/
def latin1Decode (bs : List ℕ) : Option (List ℕ) :=
  if bs.all (fun b => b ≤ 255) then some bs else none

/-- One byte of the `cp1252` (= `windows-1252`) codec: ASCII and
0xA0-0xFF decode to themselves, 0x80-0x9F via the Windows-1252 table;
the five unassigned bytes 0x81, 0x8D, 0x8F, 0x90, 0x9D fail. -/
def cp1252Byte (b : ℕ) : Option ℕ :=
  if b ≤ 127 then some b
  else if 160 ≤ b ∧ b ≤ 255 then some b
  else if b = 128 then some 8364
  else if b = 130 then some 8218
  else if b = 131 then some 402
  else if b = 132 then some 8222
  else if b = 133 then some 8230
  else if b = 134 then some 8224
  else if b = 135 then some 8225
  else if b = 136 then some 710
  else if b = 137 then some 8240
  else if b = 138 then some 352
  else if b = 139 then some 8249
  else if b = 140 then some 338
  else if b = 142 then some 381
  else if b = 145 then some 8216
  else if b = 146 then some 8217
  else if b = 147 then some 8220
  else if b = 148 then some 8221
  else if b = 149 then some 8226
  else if b = 150 then some 8211
  else if b = 151 then some 8212
  else if b = 152 then some 732
  else if b = 153 then some 8482
  else if b = 154 then some 353
  else if b = 155 then some 8250
  else if b = 156 then some 339
  else if b = 158 then some 382
  else if b = 159 then some 376
  else none

/-- The `cp1252` (= `windows-1252`) codec on a whole byte sequence. -/
def cp1252Decode (bs : List ℕ) : Option (List ℕ) :=
  bs.mapM cp1252Byte

/-- Universal-newline translation performed by Python's text-mode
`open`: `\r\n` and a lone `\r` both become `\n` (code point 10). -/
def univNewlines : List ℕ → List ℕ
  | [] => []
  | 13 :: 10 :: rest => 10 :: univNewlines rest
  | 13 :: rest => 10 :: univNewlines rest
  | c :: rest => c :: univNewlines rest

/-- Helper for `pyReadlines`: split after every newline, keeping the
newline at the end of each line, accumulator held reversed. -/
def splitLinesKeep (acc : List ℕ) : List ℕ → List (List ℕ)
  | [] => if acc.isEmpty then [] else [acc.reverse]
  | c :: rest =>
    if c = 10 then (10 :: acc).reverse :: splitLinesKeep [] rest
    else splitLinesKeep (c :: acc) rest

/-- Python's `f.readlines()` on an already-decoded text: universal
newline translation, then split keeping the terminators. -/
def pyReadlines (cps : List ℕ) : List (List ℕ) :=
  splitLinesKeep [] (univNewlines cps)

/-- The decoders of the candidate encodings, in the order of the source
list `['utf-8', 'latin-1', 'windows-1252', 'iso-8859-1', 'cp1252']`
(in CPython `windows-1252` and `cp1252` name the same codec, as do
`latin-1` and `iso-8859-1`). -/
def encodingDecoders : List (List ℕ → Option (List ℕ)) :=
  [utf8Decode, latin1Decode, cp1252Decode, latin1Decode, cp1252Decode]

/-- The encoding-fallback loop of `EngineParser.parse` (lines 20-27):
`for encoding in encodings: try: lines = f.readlines() except ...:
continue`.  The loop body has no `break`, so each successful decode
overwrites `lines`; `none` is the state in which `lines` is still
unbound. -/
def readLinesFallback (bs : List ℕ) : Option (List (List ℕ)) :=
  encodingDecoders.foldl
    (fun lines dec =>
      match dec bs with
      | some cps => some (pyReadlines cps)
      | none => lines)
    none

/-- Modelled from the spec's words (for comparison with
`readLinesFallback`): use the line sequence of the FIRST candidate
encoding that decodes without error. -/
def firstSuccessLines : List (List ℕ → Option (List ℕ)) → List ℕ → Option (List (List ℕ))
  | [], _ => none
  | dec :: rest, bs =>
    match dec bs with
    | some cps => some (pyReadlines cps)
    | none => firstSuccessLines rest bs

/-- Modelled from the spec's words: the lines the spec says the parser
should use, namely those of the first encoding that decodes. -/
def specFirstEncodingLines (bs : List ℕ) : Option (List (List ℕ)) :=
  firstSuccessLines encodingDecoders bs

/-! ### The rocket simulator core constants (lines 111-112) -/

/-- Gravitational acceleration `self.g = 9.81`. -/
def grav : ℚ := 981 / 100

/-- Sea-level air density `self.rho = 1.225`. -/
def rho0 : ℚ := 1225 / 1000

/-! ### `EngineParser` (lines 5-86)

A Python `str` is its character sequence, `List Char`; `parse` works on
the line list the reader produced.  Python's `float(...)` is modelled by
`parseFloat` (sign, digits, optional fraction, optional exponent — the
grammar exercised by `.eng` files; it fails on anything else, as `float`
raises `ValueError`).
-/

/-- The whitespace characters `str.strip()` / `str.split()` act on. -/
def pyWs (c : Char) : Bool :=
  c = ' ' ∨ c = '\t' ∨ c = '\n' ∨ c = '\r' ∨ c = '\x0b' ∨ c = '\x0c'

/-- Python's `line.strip()`: drop whitespace from both ends. -/
def stripL (l : List Char) : List Char :=
  ((l.dropWhile pyWs).reverse.dropWhile pyWs).reverse

/-- Helper for `splitWs`: whitespace-separated tokens, current token
accumulated in reverse. -/
def splitWsAux (cur : List Char) : List Char → List (List Char)
  | [] => if cur.isEmpty then [] else [cur.reverse]
  | c :: rest =>
    if pyWs c then
      if cur.isEmpty then splitWsAux [] rest else cur.reverse :: splitWsAux [] rest
    else splitWsAux (c :: cur) rest

/-- Python's `line.split()`: split on whitespace runs, no empty pieces. -/
def splitWs (l : List Char) : List (List Char) :=
  splitWsAux [] l

/-- Numeric value of a list of decimal digit characters. -/
def natOfDigits (ds : List Char) : ℕ :=
  ds.foldl (fun n c => 10 * n + (c.toNat - 48)) 0

/-- Optional exponent tail of a Python float literal. -/
def parseExpPart (cs : List Char) (mant : ℚ) (sign : ℚ) : Option ℚ :=
  match cs with
  | [] => some (sign * mant)
  | e :: r =>
    if e = 'e' ∨ e = 'E' then
      let (esign, r1) : ℤ × List Char :=
        match r with
        | '+' :: rr => (1, rr)
        | '-' :: rr => (-1, rr)
        | rr => (1, rr)
      let ds := r1.takeWhile Char.isDigit
      let rest := r1.dropWhile Char.isDigit
      if ds.isEmpty ∨ ¬ rest.isEmpty then none
      else some (sign * mant * (10 : ℚ) ^ (esign * (natOfDigits ds : ℤ)))
    else none

/-- Python's `float(s)` on the strings appearing in `.eng` files:
`some` of the exact rational value, `none` when `float` would raise
`ValueError`. -/
def parseFloat (cs : List Char) : Option ℚ :=
  let (sign, cs1) : ℚ × List Char :=
    match cs with
    | '+' :: r => (1, r)
    | '-' :: r => (-1, r)
    | r => (1, r)
  let ip := cs1.takeWhile Char.isDigit
  let cs2 := cs1.dropWhile Char.isDigit
  match cs2 with
  | '.' :: r =>
    let fp := r.takeWhile Char.isDigit
    let cs3 := r.dropWhile Char.isDigit
    if ip.isEmpty ∧ fp.isEmpty then none
    else parseExpPart cs3 ((natOfDigits ip : ℚ) + (natOfDigits fp : ℚ) / (10 : ℚ) ^ fp.length) sign
  | _ => if ip.isEmpty then none else parseExpPart cs2 (natOfDigits ip) sign

/-- A line the parser skips: blank after `strip()`, or a `;` comment
(`if not line or line.startswith(';')`). -/
def skipLine (line : List Char) : Bool :=
  (stripL line).isEmpty ||
    match stripL line with
    | ';' :: _ => true
    | _ => false

/-- The parsed motor data (the fields `EngineParser.__init__` sets and
`parse` fills; `filepath` is the reader's concern). -/
structure EngineData where
  name : List Char
  diameter : ℚ
  length : ℚ
  propellant_mass : ℚ
  total_mass : ℚ
  time : List ℚ
  thrust : List ℚ
deriving DecidableEq

/-- The specification-line loop of `parse` (lines 30-46): skip blanks
and comments; the first line with ≥ 6 whitespace-separated fields is the
specification line, whose numeric fields go through `float` — a failing
`float` raises (`Except.error`); lines with < 6 fields are passed over.
Returns the parsed header and the remaining lines (`lines[data_start:]`),
or `none` when no line qualified (all header fields keep their defaults
and `data_start` keeps its initial value 0). -/
def findSpecAux :
    List (List Char) → Except String (Option ((List Char × ℚ × ℚ × ℚ × ℚ) × List (List Char)))
  | [] => .ok none
  | line :: rest =>
    if skipLine line then findSpecAux rest
    else
      let parts := splitWs (stripL line)
      if 6 ≤ parts.length then
        match parseFloat (parts.getD 1 []), parseFloat (parts.getD 2 []),
              parseFloat (parts.getD 4 []), parseFloat (parts.getD 5 []) with
        | some d, some l, some pm, some tm => .ok (some ((parts.getD 0 [], d, l, pm, tm), rest))
        | _, _, _, _ => .error "ValueError"
      else findSpecAux rest

/-- The data loop of `parse` (lines 49-62): skip blanks and comments;
every remaining line with ≥ 2 fields contributes a `(time, thrust)`
sample when both fields parse as floats, and is silently skipped when
one does not (`except ValueError: continue`). -/
def parseDataLines : List (List Char) → List ℚ × List ℚ
  | [] => ([], [])
  | line :: rest =>
    let (ts, fs) := parseDataLines rest
    if skipLine line then (ts, fs)
    else
      let parts := splitWs (stripL line)
      if 2 ≤ parts.length then
        match parseFloat (parts.getD 0 []), parseFloat (parts.getD 1 []) with
        | some t, some f => (t :: ts, f :: fs)
        | _, _ => (ts, fs)
      else (ts, fs)

/-- `EngineParser.parse` (lines 18-67) on the line list: find the
specification line, then collect the data samples from the lines after
it (from the whole file when no specification line was found, since
`data_start` stays 0). -/
def parse (lines : List (List Char)) : Except String EngineData :=
  match findSpecAux lines with
  | .error e => .error e
  | .ok none =>
    let (ts, fs) := parseDataLines lines
    .ok ⟨[], 0, 0, 0, 0, ts, fs⟩
  | .ok (some ((nm, d, l, pm, tm), rest)) =>
    let (ts, fs) := parseDataLines rest
    .ok ⟨nm, d, l, pm, tm, ts, fs⟩

/-- `EngineParser.get_burn_time` (lines 69-71):
`self.time[-1] if len(self.time) > 0 else 0`. -/
def get_burn_time (time : List ℚ) : ℚ :=
  if 0 < time.length then time.getLast! else 0

/-- `np.trapezoid(y, x)`: the trapezoidal rule
`Σ (x_{i+1} - x_i) * (y_i + y_{i+1}) / 2`. -/
def trapezoid : List ℚ → List ℚ → ℚ
  | y0 :: y1 :: ys, x0 :: x1 :: xs => (x1 - x0) * (y0 + y1) / 2 + trapezoid (y1 :: ys) (x1 :: xs)
  | _, _ => 0

/-- `EngineParser.get_average_thrust` (lines 73-79).  With < 2 samples
it returns 0; otherwise it divides the trapezoidal total impulse by
`get_burn_time`.  The division is a numpy float division: dividing by a
zero burn time does not raise but yields a non-finite float (inf/nan),
modelled as `none`; a finite value is `some`. -/
def get_average_thrust (time thrust : List ℚ) : Option ℚ :=
  if time.length < 2 then some 0
  else
    if get_burn_time time = 0 then none
    else some (trapezoid thrust time / get_burn_time time)

/-- Linear interpolation on the segment from `p` to `q` at abscissa `t`. -/
def interpSeg (p q : ℚ × ℚ) (t : ℚ) : ℚ :=
  p.2 + (q.2 - p.2) * (t - p.1) / (q.1 - p.1)

/-- Interpolation to the right of knot `p`: find the first later knot
`q` with `t ≤ q.1` and interpolate on that segment; past the last knot
the fill value 0 applies (the last knot itself keeps its own value). -/
def interpAbove (p : ℚ × ℚ) : List (ℚ × ℚ) → ℚ → ℚ
  | [], t => if t = p.1 then p.2 else 0
  | q :: rest, t => if t ≤ q.1 then interpSeg p q t else interpAbove q rest t

/-- `scipy.interpolate.interp1d(x, y, kind='linear', bounds_error=False,
fill_value=0)` in exact arithmetic: piecewise-linear through the knots,
0 strictly outside their span. -/
def interp1dLinear (samples : List (ℚ × ℚ)) (t : ℚ) : ℚ :=
  match samples with
  | [] => 0
  | p :: rest => if t < p.1 then 0 else interpAbove p rest t

/-- `EngineParser.get_thrust_interpolator` (lines 81-86): the constant
zero function with < 2 samples, else the bounded linear interpolant of
the `(time, thrust)` samples. -/
def get_thrust_interpolator (time thrust : List ℚ) : ℚ → ℚ :=
  if time.length < 2 then fun _ => 0
  else interp1dLinear (time.zip thrust)

/-! ### `RocketSimulator` (lines 89-212)

The presentation-only fields `engine_name` and `avg_thrust` (used only
by `print_results`/`plot_results`) are omitted.  `np.pi` enters only
through `self.area`, so the constructors take the value `piA` used for
it; `np.exp` enters only through `drag_force`, so the simulation
functions take the exponential `expF` as a parameter.
-/

/-- The two engine configurations of `RocketSimulator.__init__`:
`'curve'` (an `.eng` file was given) and `'constant'` (manual
parameters). -/
inductive EngineMode where
  | curve
  | constant
deriving DecidableEq

/-- The state `RocketSimulator.__init__` builds. -/
structure RocketSimulator where
  diameter : ℚ
  cd : ℚ
  area : ℚ
  engine_mode : EngineMode
  thrust_func : ℚ → ℚ
  thrust_value : ℚ
  burn_time : ℚ
  mp : ℚ
  m0 : ℚ
  mf : ℚ

/-- `RocketSimulator.__init__` with `engine=None` (lines 125-134):
manual `thrust`, `burn_time`, `propellant_mass`. -/
def mkConstant (total_mass diameter cd thrust burn_time propellant_mass piA : ℚ) :
    RocketSimulator where
  diameter := diameter
  cd := cd
  area := piA * (diameter / 2) ^ 2
  engine_mode := .constant
  thrust_func := fun _ => 0
  thrust_value := thrust
  burn_time := burn_time
  mp := propellant_mass
  m0 := total_mass
  mf := total_mass - propellant_mass

/-- `RocketSimulator.__init__` with an `EngineParser` (lines 115-124):
thrust curve, burn time and propellant mass from the parsed file. -/
def mkCurve (total_mass diameter cd : ℚ) (engine : EngineData) (piA : ℚ) :
    RocketSimulator where
  diameter := diameter
  cd := cd
  area := piA * (diameter / 2) ^ 2
  engine_mode := .curve
  thrust_func := get_thrust_interpolator engine.time engine.thrust
  thrust_value := 0
  burn_time := get_burn_time engine.time
  mp := engine.propellant_mass
  m0 := total_mass
  mf := total_mass - engine.propellant_mass

/-- `RocketSimulator.thrust` (lines 136-144): 0 after the burn, else the
interpolated curve (`'curve'` mode) or the fixed value (`'constant'`
mode). -/
def RocketSimulator.thrust (sim : RocketSimulator) (t : ℚ) : ℚ :=
  if sim.burn_time < t then 0
  else
    match sim.engine_mode with
    | .curve => sim.thrust_func t
    | .constant => sim.thrust_value

/-- `RocketSimulator.drag_force` (lines 146-149), with `np.exp` supplied
as `expF`. -/
def RocketSimulator.drag_force (sim : RocketSimulator) (expF : ℚ → ℚ) (velocity altitude : ℚ) : ℚ :=
  let rho_alt := rho0 * expF (-altitude / 8500)
  1 / 2 * rho_alt * velocity ^ 2 * sim.cd * sim.area

/-- `RocketSimulator.mass` (lines 151-156).  During the burn it computes
`self.m0 - (self.mp / self.burn_time) * t`: when `burn_time = 0` that
division raises `ZeroDivisionError` — there is no guard in the source —
modelled as `Except.error`. -/
def RocketSimulator.massE (sim : RocketSimulator) (t : ℚ) : Except String ℚ :=
  if t ≤ sim.burn_time then
    if sim.burn_time = 0 then .error "ZeroDivisionError"
    else .ok (sim.m0 - sim.mp / sim.burn_time * t)
  else .ok sim.mf

/-- The dict `RocketSimulator.simulate` returns (lines 203-212). -/
structure SimResult where
  apogeo : ℚ
  tempo_apogeo : ℚ
  velocita_2m : ℚ
  tempo_2m : ℚ
  times : List ℚ
  heights : List ℚ
  velocities : List ℚ
  thrusts : List ℚ
deriving DecidableEq

/-- How the `while True` loop of `simulate` can end: via the apogee
break with the dict fully buildable, via a safety-bound break (after
which the `return` raises, since `apogee` was never assigned), via a
`ZeroDivisionError` inside the body, or — only when `dt ≤ 0`, where the
Python loop never terminates — by running out of fuel. -/
inductive SimOutcome where
  | apogee (res : SimResult)
  | aborted (t h v : ℚ) (times heights velocities thrusts : List ℚ)
  | zeroDiv
  | fuelOut
deriving DecidableEq

/-- Whether the loop ended via a safety bound (the state the spec calls
ABORTED). -/
def SimOutcome.isAborted : SimOutcome → Bool
  | .aborted _ _ _ _ _ _ _ => true
  | _ => false

/-- One-for-one model of the `while True` body of `simulate`
(lines 173-201): mass, thrust, weight, drag (only when `v > 0`),
acceleration, Euler update, series append, one-shot 2 m capture, apogee
break, safety-bound break.  `fuel` only bounds the recursion; with
`dt > 0` it is never exhausted from the initial state. -/
def simLoop (sim : RocketSimulator) (expF : ℚ → ℚ) (dt : ℚ) :
    ℕ → ℚ → ℚ → ℚ → List ℚ → List ℚ → List ℚ → List ℚ → Option (ℚ × ℚ) → SimOutcome
  | 0, _, _, _, _, _, _, _, _ => .fuelOut
  | fuel + 1, t, h, v, ts, hs, vs, fs, m2 =>
    match sim.massE t with
    | .error _ => .zeroDiv
    | .ok m =>
      if m = 0 then .zeroDiv
      else
        let thrust_force := sim.thrust t
        let weight := m * grav
        let drag := if 0 < v then sim.drag_force expF v h else 0
        let a := (thrust_force - weight - drag) / m
        let v' := v + a * dt
        let h' := h + v' * dt
        let t' := t + dt
        let ts' := ts ++ [t']
        let hs' := hs ++ [h']
        let vs' := vs ++ [v']
        let fs' := fs ++ [thrust_force]
        let m2' := if m2.isNone ∧ 2 ≤ h' then some (v', t') else m2
        if v' ≤ 0 ∧ 0 < h' then
          .apogee
            { apogeo := h'
              tempo_apogeo := t'
              velocita_2m := (m2'.map Prod.fst).getD 0
              tempo_2m := (m2'.map Prod.snd).getD 0
              times := ts'
              heights := hs'
              velocities := vs'
              thrusts := fs' }
        else if 300 < t' ∨ h' < -10 then .aborted t' h' v' ts' hs' vs' fs'
        else simLoop sim expF dt fuel t' h' v' ts' hs' vs' fs' m2'

/-- Fuel sufficient for the loop: with `dt > 0` the simulated time
passes 300 s strictly before `fuelFor dt` iterations, so `simLoop`
always breaks first. -/
def fuelFor (dt : ℚ) : ℕ :=
  (⌈(300 : ℚ) / dt⌉).toNat + 2

/-- `RocketSimulator.simulate` up to its final `return`: the loop run
from `t = h = v = 0` with the initial series entries of lines 164-167. -/
def simulateO (sim : RocketSimulator) (expF : ℚ → ℚ) (dt : ℚ) : SimOutcome :=
  simLoop sim expF dt (fuelFor dt) 0 0 0 [0] [0] [0] [sim.thrust 0] none

/-- `RocketSimulator.simulate` (lines 158-212) including its `return`
statement: only the apogee break reaches the dict with `apogee` bound;
after a safety-bound break the `return` raises `UnboundLocalError`
(`apogee` was never assigned), and a zero division inside the body
propagates. -/
def simulate (sim : RocketSimulator) (expF : ℚ → ℚ) (dt : ℚ) : Except String SimResult :=
  match simulateO sim expF dt with
  | .apogee res => .ok res
  | .aborted _ _ _ _ _ _ _ => .error "UnboundLocalError"
  | .zeroDiv => .error "ZeroDivisionError"
  | .fuelOut => .error "nontermination"

/-- Decidable equality for `Except`, used to evaluate the model on
concrete inputs. -/
instance {ε α : Type} [DecidableEq ε] [DecidableEq α] : DecidableEq (Except ε α)
  | .ok a, .ok b =>
    if h : a = b then .isTrue (by rw [h]) else .isFalse (by simp [h])
  | .ok _, .error _ => .isFalse (by simp)
  | .error _, .ok _ => .isFalse (by simp)
  | .error e, .error e' =>
    if h : e = e' then .isTrue (by rw [h]) else .isFalse (by simp [h])

section ClaimTheorems

attribute [local semireducible] Rat.mul Rat.inv Rat.add Rat.sub

/-- C1: the claim says that when the stepping loop exits via a safety
bound (t > 300 or h < −10) with the apogee condition never holding,
`simulate` still returns a result reporting the ABORTED terminal state
and does not raise.  The code contradicts it: on the concrete
configuration below (zero thrust, so the rocket sinks to h < −10 and the
loop does exit via the safety bound) the `return` statement reads the
never-assigned `apogee` and raises `UnboundLocalError` instead of
returning a result. -/
theorem simulate_safety_bound_raises :
    (simulateO (mkConstant 1 (6 / 100) (9 / 10) 0 1 0 3) (fun _ => 1) 1).isAborted = true ∧
    simulate (mkConstant 1 (6 / 100) (9 / 10) 0 1 0 3) (fun _ => 1) 1 =
      Except.error "UnboundLocalError" :=
  ⟨rfl, rfl⟩

/-- C2: the claim says the line sequence used for parsing is the one
produced by the FIRST encoding that decodes without error.  The code's
encoding loop has no `break`, so the LAST successful decode wins: on the
file bytes `0xC3 0xA9` (valid UTF-8 for a single character, U+00E9) the
code keeps the `cp1252` decode (two characters, 0xC3 0xA9), not the
UTF-8 one the claim requires. -/
theorem readLines_uses_last_encoding :
    readLinesFallback [195, 169] = some [[195, 169]] ∧
    specFirstEncodingLines [195, 169] = some [[233]] ∧
    readLinesFallback [195, 169] ≠ specFirstEncodingLines [195, 169] := by
  refine ⟨rfl, rfl, ?_⟩
  decide

/-- C5: the claim says the instantaneous-mass computation is guarded
against `burn_time = 0` and yields `mf` there.  The code has no guard:
with `burn_time = 0` the branch `t <= self.burn_time` is taken at
`t = 0` and `self.mp / self.burn_time` raises `ZeroDivisionError`. -/
theorem mass_zero_burn_time_raises :
    (mkConstant 1 (6 / 100) (9 / 10) 5 0 (13 / 100) 3).massE 0 =
      Except.error "ZeroDivisionError" :=
  rfl

/-- C7: for both motor variants `thrust` returns 0 for every
`t > burn_time`, and in the `'constant'` variant it returns exactly the
supplied fixed thrust value for every `t ≤ burn_time`. -/
theorem thrust_after_burnout (sim : RocketSimulator) (t : ℚ) :
    (sim.burn_time < t → sim.thrust t = 0) ∧
    (sim.engine_mode = EngineMode.constant → t ≤ sim.burn_time →
      sim.thrust t = sim.thrust_value) ∧
    (∀ total_mass diameter cd F bt pm piA : ℚ, t ≤ bt →
      (mkConstant total_mass diameter cd F bt pm piA).thrust t = F) := by
  refine ⟨?_, ?_, ?_⟩
  · intro h
    simp [RocketSimulator.thrust, h]
  · intro hm h
    simp [RocketSimulator.thrust, not_lt.2 h, hm]
  · intro total_mass diameter cd F bt pm piA h
    simp [RocketSimulator.thrust, mkConstant, not_lt.2 h]

/-- C7 witness: the constant-variant simulator built from thrust 42 and
burn time 10 reports thrust 42 at t = 5. -/
theorem thrust_after_burnout_witness :
    (mkConstant 1 1 1 42 10 0 3).thrust 5 = 42 :=
  (thrust_after_burnout (mkConstant 1 1 1 42 10 0 3) 5).2.2 1 1 1 42 10 0 3 (by norm_num)

/-- C8: with `propellant_mass ≥ 0` and `burn_time > 0` (and `mf` the
constructor's `total_mass - propellant_mass`), the mass is monotonically
non-increasing on `t ≤ burn_time`, equals `mf` for every
`t > burn_time`, and equals `mf` exactly at `t = burn_time`. -/
theorem mass_monotone (sim : RocketSimulator) (hmp : 0 ≤ sim.mp)
    (hbt : 0 < sim.burn_time) (hmf : sim.mf = sim.m0 - sim.mp) :
    (∀ t1 t2 m1 m2 : ℚ, t1 ≤ t2 → t2 ≤ sim.burn_time →
      sim.massE t1 = Except.ok m1 → sim.massE t2 = Except.ok m2 → m2 ≤ m1) ∧
    (∀ t : ℚ, sim.burn_time < t → sim.massE t = Except.ok sim.mf) ∧
    sim.massE sim.burn_time = Except.ok sim.mf := by
  have hbt0 : sim.burn_time ≠ 0 := ne_of_gt hbt
  refine ⟨?_, ?_, ?_⟩
  · intro t1 t2 m1 m2 h12 h2bt hm1 hm2
    have h1bt : t1 ≤ sim.burn_time := le_trans h12 h2bt
    simp only [RocketSimulator.massE, if_pos h1bt, if_pos h2bt, if_neg hbt0,
      Except.ok.injEq] at hm1 hm2
    rw [← hm1, ← hm2]
    have hc : 0 ≤ sim.mp / sim.burn_time := div_nonneg hmp hbt.le
    exact sub_le_sub_left (mul_le_mul_of_nonneg_left h12 hc) _
  · intro t ht
    simp [RocketSimulator.massE, not_le.2 ht]
  · simp only [RocketSimulator.massE, if_pos le_rfl, if_neg hbt0]
    rw [div_mul_cancel₀ _ hbt0, ← hmf]

/-- C8 witness: for total mass 2, propellant 1, burn time 4, the mass at
burn-time equals the final mass 1 exactly. -/
theorem mass_monotone_witness :
    (mkConstant 2 1 1 0 4 1 3).massE 4 = Except.ok 1 := by
  have h := (mass_monotone (mkConstant 2 1 1 0 4 1 3) (by norm_num [mkConstant])
    (by norm_num [mkConstant]) (by norm_num [mkConstant])).2.2
  simpa [mkConstant] using h

/-- C6 counterexample: the claim says that in the degenerate case
`burn_time = 0` (with ≥ 2 samples) `average_thrust` returns 0.  On the
strictly increasing sample times `[-1, 0]` (burn time 0) the code
instead performs the unguarded numpy division of the nonzero impulse by
zero, yielding a non-finite value (`none` in this model), not 0. -/
theorem average_thrust_zero_burn_counterexample :
    ¬ get_average_thrust [-1, 0] [2, 2] = some 0 := by
  have h : get_average_thrust [-1, 0] [2, 2] = none := rfl
  rw [h]
  simp

/-- C6 amended: `average_thrust` returns 0 when there are fewer than 2
samples; with ≥ 2 samples and nonzero burn time it returns the
trapezoidal total impulse divided by the burn time (so that
average × burn time equals the trapezoidal integral exactly); with ≥ 2
samples and burn time 0 the division is unguarded and the result is
non-finite (`none`), not 0. -/
theorem average_thrust_amended :
    (∀ time thrust : List ℚ, time.length < 2 →
      get_average_thrust time thrust = some 0) ∧
    (∀ time thrust : List ℚ, 2 ≤ time.length → 0 < get_burn_time time →
      get_average_thrust time thrust =
        some (trapezoid thrust time / get_burn_time time) ∧
      trapezoid thrust time / get_burn_time time * get_burn_time time =
        trapezoid thrust time) ∧
    (∀ time thrust : List ℚ, 2 ≤ time.length → get_burn_time time = 0 →
      get_average_thrust time thrust = none) := by
  refine ⟨?_, ?_, ?_⟩
  · intro time thrust h
    simp [get_average_thrust, h]
  · intro time thrust h2 hbt
    constructor
    · simp [get_average_thrust, not_lt.2 h2, ne_of_gt hbt]
    · exact div_mul_cancel₀ _ (ne_of_gt hbt)
  · intro time thrust h2 hbt
    simp [get_average_thrust, not_lt.2 h2, hbt]

/-- C6 witness: the ramp curve 0 → 50 N over 1 s has average thrust
25 N (total impulse 25 N·s over burn time 1 s). -/
theorem average_thrust_amended_witness :
    get_average_thrust [0, 1] [0, 50] = some 25 := by
  have h := ((average_thrust_amended.2.1) [0, 1] [0, 50] (by norm_num)
    (by rw [show get_burn_time [0, 1] = 1 from rfl]; norm_num)).1
  rw [h]
  rfl

/-- Helper: when every line is a comment/blank or has fewer than 6
fields, the specification-line loop of `parse` finds nothing and leaves
the defaults in place. -/
theorem findSpecAux_none (lines : List (List Char))
    (h : ∀ l ∈ lines, skipLine l = true ∨ (splitWs (stripL l)).length < 6) :
    findSpecAux lines = Except.ok none := by
  induction lines with
  | nil => rfl
  | cons line rest ih =>
    have hrest : ∀ l ∈ rest, skipLine l = true ∨ (splitWs (stripL l)).length < 6 :=
      fun l hl => h l (by simp [hl])
    by_cases hskip : skipLine line = true
    · simp [findSpecAux, hskip, ih hrest]
    · rcases h line (by simp) with h1 | hshort
      · exact absurd h1 hskip
      · simp [findSpecAux, hskip, not_le.2 hshort, ih hrest]

/-- C3 counterexample: the claim says a readable file whose first
non-comment, non-blank line does not have ≥ 6 fields fails fatally with
a diagnostic rather than succeeding with default/empty motor fields.
On the one-line file `F35 29 95` the code instead succeeds, with every
motor field left at its default (empty name, zero masses). -/
theorem parse_missing_spec_succeeds :
    parse [("F35 29 95").toList] = Except.ok (EngineData.mk [] 0 0 0 0 [] []) :=
  rfl

/-- C3 amended: a file in which no non-comment, non-blank line has ≥ 6
whitespace-separated fields parses successfully with default/empty motor
fields (there is no ParseError in the code); a fatal error occurs
exactly when the first line with ≥ 6 fields has a required numeric field
that `float` cannot parse (a `ValueError` that `__main__` reports as a
parse failure). -/
theorem parse_spec_line_amended :
    (∀ lines : List (List Char),
      (∀ l ∈ lines, skipLine l = true ∨ (splitWs (stripL l)).length < 6) →
      ∃ d : EngineData, parse lines = Except.ok d ∧ d.name = [] ∧ d.diameter = 0 ∧
        d.length = 0 ∧ d.propellant_mass = 0 ∧ d.total_mass = 0) ∧
    (∀ (pre : List (List Char)) (line : List Char) (post : List (List Char)),
      (∀ l ∈ pre, skipLine l = true ∨ (splitWs (stripL l)).length < 6) →
      skipLine line = false → 6 ≤ (splitWs (stripL line)).length →
      (parseFloat ((splitWs (stripL line)).getD 1 []) = none ∨
       parseFloat ((splitWs (stripL line)).getD 2 []) = none ∨
       parseFloat ((splitWs (stripL line)).getD 4 []) = none ∨
       parseFloat ((splitWs (stripL line)).getD 5 []) = none) →
      parse (pre ++ line :: post) = Except.error "ValueError") := by
  constructor
  · intro lines h
    rcases hp : parseDataLines lines with ⟨ts, fs⟩
    exact ⟨⟨[], 0, 0, 0, 0, ts, fs⟩, by simp [parse, findSpecAux_none lines h, hp],
      rfl, rfl, rfl, rfl, rfl⟩
  · intro pre line post hpre hskip h6 hbad
    have hfind : ∀ pre2 : List (List Char),
        (∀ l ∈ pre2, skipLine l = true ∨ (splitWs (stripL l)).length < 6) →
        findSpecAux (pre2 ++ line :: post) = Except.error "ValueError" := by
      intro pre2
      induction pre2 with
      | nil =>
        intro _
        rcases e1 : parseFloat ((splitWs (stripL line)).getD 1 []) with _ | v1 <;>
        rcases e2 : parseFloat ((splitWs (stripL line)).getD 2 []) with _ | v2 <;>
        rcases e4 : parseFloat ((splitWs (stripL line)).getD 4 []) with _ | v4 <;>
        rcases e5 : parseFloat ((splitWs (stripL line)).getD 5 []) with _ | v5 <;>
        simp_all [findSpecAux]
      | cons a pre' ih =>
        intro hp
        have hp' : ∀ l ∈ pre', skipLine l = true ∨ (splitWs (stripL l)).length < 6 :=
          fun l hl => hp l (by simp [hl])
        by_cases hsa : skipLine a = true
        · simpa [findSpecAux, hsa] using ih hp'
        · rcases hp a (by simp) with h1 | hshort
          · exact absurd h1 hsa
          · simpa [findSpecAux, hsa, not_le.2 hshort] using ih hp'
    simp [parse, hfind pre hpre]

/-- C3 witness: a file whose candidate specification line has a
non-numeric field where a float is required makes `parse` raise. -/
theorem parse_spec_line_amended_witness :
    parse [("F35 29 95 0-4 x 0.118 TSP").toList] = Except.error "ValueError" :=
  parse_spec_line_amended.2 [] (("F35 29 95 0-4 x 0.118 TSP").toList) []
    (by simp) (by rfl) (by decide) (Or.inr (Or.inr (Or.inl (by rfl))))

/-- Helper: the interpolation segment evaluated at its left knot. -/
theorem interpSeg_left (p q : ℚ × ℚ) : interpSeg p q p.1 = p.2 := by
  simp [interpSeg]

/-- Helper: the interpolation segment evaluated at its right knot. -/
theorem interpSeg_right (p q : ℚ × ℚ) (h : p.1 ≠ q.1) : interpSeg p q q.1 = q.2 := by
  have h0 : q.1 - p.1 ≠ 0 := sub_ne_zero.2 (Ne.symm h)
  field_simp [interpSeg]

/-- Helper: in a sorted knot list, interpolation at a later knot's
abscissa recovers that knot's ordinate. -/
theorem interpAbove_mem (p : ℚ × ℚ) (rest : List (ℚ × ℚ))
    (hp : List.Pairwise (fun u v => u.1 < v.1) (p :: rest)) :
    ∀ m ∈ rest, interpAbove p rest m.1 = m.2 := by
  induction rest generalizing p with
  | nil => simp
  | cons q rs ih =>
    intro m hm
    rcases List.mem_cons.1 hm with rfl | hm'
    · have hpq : p.1 < m.1 := (List.pairwise_cons.1 hp).1 m (by simp)
      simp only [interpAbove]
      rw [if_pos le_rfl]
      exact interpSeg_right p m hpq.ne
    · have hq : q.1 < m.1 := (List.pairwise_cons.1 hp.of_cons).1 m hm'
      simp only [interpAbove]
      rw [if_neg (not_le.2 hq)]
      exact ih q hp.of_cons m hm'

/-- Helper: past every knot the interpolant is the fill value 0. -/
theorem interpAbove_gt_all (p : ℚ × ℚ) (rest : List (ℚ × ℚ)) (t : ℚ)
    (h : ∀ x ∈ p :: rest, x.1 < t) :
    interpAbove p rest t = 0 := by
  induction rest generalizing p with
  | nil =>
    have hpt := h p (by simp)
    simp [interpAbove, hpt.ne']
  | cons q rs ih =>
    have hq := h q (by simp)
    simp only [interpAbove]
    rw [if_neg (not_le.2 hq)]
    exact ih q (fun x hx => h x (List.mem_cons_of_mem p hx))

/-- Helper: between the consecutive knots `l` and `r` the interpolant is
the `l`-`r` segment, wherever the bracketing pair sits in the list. -/
theorem interpAbove_segment (t : ℚ) :
    ∀ (xs : List (ℚ × ℚ)) (a l r : ℚ × ℚ) (post : List (ℚ × ℚ)),
      List.Pairwise (fun u v => u.1 < v.1) (a :: (xs ++ l :: r :: post)) →
      l.1 ≤ t → t ≤ r.1 →
      interpAbove a (xs ++ l :: r :: post) t = interpSeg l r t := by
  intro xs
  induction xs with
  | nil =>
    intro a l r post hp hlt htr
    have hal : a.1 < l.1 := (List.pairwise_cons.1 hp).1 l (by simp)
    simp only [List.nil_append, interpAbove]
    by_cases hle : t ≤ l.1
    · have heq : t = l.1 := le_antisymm hle hlt
      rw [if_pos hle, heq, interpSeg_right a l hal.ne]
      exact (interpSeg_left l r).symm
    · rw [if_neg hle]
      rw [if_pos htr]
  | cons b xs' ih =>
    intro a l r post hp hlt htr
    have hbl : b.1 < l.1 := (List.pairwise_cons.1 hp.of_cons).1 l (by simp)
    have hbt : ¬ t ≤ b.1 := not_le.2 (lt_of_lt_of_le hbl hlt)
    simp only [List.cons_append, interpAbove]
    rw [if_neg hbt]
    exact ih b l r post hp.of_cons hlt htr

/-- Helper: `interp1dLinear` on a bracketing pair of consecutive knots. -/
theorem interp1d_segment (samples pre : List (ℚ × ℚ)) (l r : ℚ × ℚ)
    (post : List (ℚ × ℚ)) (t : ℚ)
    (hs : samples = pre ++ l :: r :: post)
    (hp : List.Pairwise (fun u v => u.1 < v.1) samples)
    (hlt : l.1 ≤ t) (htr : t ≤ r.1) :
    interp1dLinear samples t = interpSeg l r t := by
  subst hs
  rcases pre with _ | ⟨a, pre'⟩
  · simp only [List.nil_append, interp1dLinear]
    rw [if_neg (not_lt.2 hlt)]
    simp only [interpAbove]
    rw [if_pos htr]
  · simp only [List.cons_append, interp1dLinear]
    have hal : a.1 < l.1 := by
      refine (List.pairwise_cons.1 hp).1 l ?_
      simp
    rw [if_neg (not_lt.2 (le_trans hal.le hlt))]
    exact interpAbove_segment t pre' a l r post hp hlt htr

/-- Helper: `interp1dLinear` recovers every knot exactly. -/
theorem interp1d_mem (samples : List (ℚ × ℚ))
    (hp : List.Pairwise (fun u v => u.1 < v.1) samples) :
    ∀ m ∈ samples, interp1dLinear samples m.1 = m.2 := by
  intro m hm
  rcases samples with _ | ⟨p, rest⟩
  · simp at hm
  · rcases List.mem_cons.1 hm with rfl | hm'
    · simp only [interp1dLinear]
      rw [if_neg (lt_irrefl _)]
      rcases rest with _ | ⟨q, rs⟩
      · simp [interpAbove]
      · have hpq : m.1 < q.1 := (List.pairwise_cons.1 hp).1 q (by simp)
        simp only [interpAbove]
        rw [if_pos hpq.le]
        exact interpSeg_left m q
    · have hpm : p.1 < m.1 := (List.pairwise_cons.1 hp).1 m hm'
      simp only [interp1dLinear]
      rw [if_neg (not_lt.2 hpm.le)]
      exact interpAbove_mem p rest hp m hm'

/-- Helper: a strictly increasing first component survives zipping. -/
theorem pairwise_fst_zip (xs ys : List ℚ) (h : List.Pairwise (· < ·) xs) :
    List.Pairwise (fun u v : ℚ × ℚ => u.1 < v.1) (xs.zip ys) := by
  induction xs generalizing ys with
  | nil => simp
  | cons x xs' ih =>
    rcases ys with _ | ⟨y, ys'⟩
    · simp
    · rw [List.zip_cons_cons]
      refine List.pairwise_cons.2 ⟨?_, ih ys' h.of_cons⟩
      rintro ⟨qa, qb⟩ hq
      exact (List.pairwise_cons.1 h).1 qa (List.of_mem_zip hq).1

/-- Helper: in a sorted list every member is at most `getLast!`. -/
theorem sorted_le_getLastBang :
    ∀ (l : List ℚ) (x : ℚ), List.Pairwise (· < ·) (x :: l) →
      ∀ y ∈ x :: l, y ≤ (x :: l).getLast! := by
  intro l
  induction l with
  | nil =>
    intro x _ y hy
    simp only [List.mem_singleton] at hy
    simp [hy, List.getLast!_cons]
  | cons z rs ih =>
    intro x hp y hy
    have hxz : x < z := (List.pairwise_cons.1 hp).1 z (by simp)
    have hlast : (x :: z :: rs).getLast! = (z :: rs).getLast! := by
      rw [List.getLast!_cons, List.getLast!_cons, List.getLastD_cons]
    rw [hlast]
    rcases List.mem_cons.1 hy with rfl | hy'
    · exact le_trans hxz.le (ih z hp.of_cons z (by simp))
    · exact ih z hp.of_cons y hy'

/-- C4: for every strictly increasing sample sequence with ≥ 2 samples,
the sampled-variant thrust function agrees exactly with every sample at
its own time, is the fill value 0 for every t strictly outside
[min sample time, max sample time], and between two consecutive samples
is the linear interpolation of the bracketing samples — a convex
combination of their thrusts. -/
theorem thrust_interpolator_spec (time thrust : List ℚ)
    (hlen : time.length = thrust.length) (h2 : 2 ≤ time.length)
    (hinc : List.Chain' (· < ·) time) :
    (∀ p ∈ time.zip thrust, get_thrust_interpolator time thrust p.1 = p.2) ∧
    (∀ t : ℚ, t < time.head! ∨ time.getLast! < t →
      get_thrust_interpolator time thrust t = 0) ∧
    (∀ (pre : List (ℚ × ℚ)) (l r : ℚ × ℚ) (post : List (ℚ × ℚ)),
      time.zip thrust = pre ++ l :: r :: post →
      ∀ t : ℚ, l.1 ≤ t → t ≤ r.1 →
      get_thrust_interpolator time thrust t =
        l.2 + (r.2 - l.2) * (t - l.1) / (r.1 - l.1) ∧
      ∃ lam : ℚ, 0 ≤ lam ∧ lam ≤ 1 ∧
        get_thrust_interpolator time thrust t = (1 - lam) * l.2 + lam * r.2) := by
  have hpwt : List.Pairwise (· < ·) time := List.chain'_iff_pairwise.1 hinc
  have hPW := pairwise_fst_zip time thrust hpwt
  have hg : get_thrust_interpolator time thrust = interp1dLinear (time.zip thrust) := by
    unfold get_thrust_interpolator
    rw [if_neg (not_lt.2 h2)]
  refine ⟨?_, ?_, ?_⟩
  · intro p hp
    rw [hg]
    exact interp1d_mem _ hPW p hp
  · intro t ht
    rw [hg]
    rcases time with _ | ⟨t0, trest⟩
    · simp at h2
    rcases thrust with _ | ⟨f0, frest⟩
    · simp at hlen
    rcases ht with hlt | hgt
    · have ht0 : t < t0 := hlt
      simp only [List.zip_cons_cons, interp1dLinear]
      rw [if_pos ht0]
    · have hall : ∀ x ∈ (t0 :: trest).zip (f0 :: frest), x.1 < t := by
        rintro ⟨xa, xb⟩ hx
        have hxa : xa ∈ t0 :: trest := (List.of_mem_zip hx).1
        exact lt_of_le_of_lt (sorted_le_getLastBang trest t0 hpwt xa hxa) hgt
      simp only [List.zip_cons_cons, interp1dLinear]
      rw [if_neg (not_lt.2 (hall (t0, f0) (by simp)).le)]
      exact interpAbove_gt_all (t0, f0) (trest.zip frest) t hall
  · intro pre l r post hzip t hlt htr
    have hseg := interp1d_segment (time.zip thrust) pre l r post t hzip hPW hlt htr
    have hlr : l.1 < r.1 := by
      rw [hzip] at hPW
      have h1 := (List.pairwise_append.1 hPW).2.1
      exact (List.pairwise_cons.1 h1).1 r (by simp)
    have hden : (0 : ℚ) < r.1 - l.1 := sub_pos.2 hlr
    constructor
    · rw [hg, hseg]
      rfl
    · refine ⟨(t - l.1) / (r.1 - l.1), div_nonneg (sub_nonneg.2 hlt) hden.le, ?_, ?_⟩
      · rw [div_le_one hden]
        exact sub_le_sub_right htr _
      · rw [hg, hseg]
        simp only [interpSeg]
        have hne : r.1 - l.1 ≠ 0 := hden.ne'
        field_simp
        ring

/-- C4 witness: on the ramp samples (0 s, 0 N), (1 s, 50 N) the
interpolator reproduces the sample at t = 1 exactly. -/
theorem thrust_interpolator_spec_witness :
    get_thrust_interpolator [0, 1] [0, 50] 1 = 50 := by
  have h := (thrust_interpolator_spec [0, 1] [0, 50] rfl (by norm_num)
    (by norm_num [List.chain'_cons])).1 (1, 50) (by decide)
  simpa using h

/-- Helper: with a motor that never produces thrust, the stepping loop,
started from a grounded state (v ≤ 0, h ≤ 0) with enough fuel to pass
the 300 s cutoff, always ends in the safety-bound (aborted) break, with
final simulated time at most 300 + dt and the rocket never above the
ground. -/
theorem simLoop_zero_thrust_aborts (sim : RocketSimulator) (expF : ℚ → ℚ) (dt : ℚ)
    (hdt : 0 < dt) (hth : ∀ t, sim.thrust t = 0) (hbt : 0 < sim.burn_time)
    (hmp : 0 ≤ sim.mp) (hmf : 0 < sim.mf) (hm0 : sim.m0 = sim.mf + sim.mp) :
    ∀ (fuel : ℕ) (t h v : ℚ) (ts hs vs fs : List ℚ) (m2 : Option (ℚ × ℚ)),
      0 ≤ t → t ≤ 300 → v ≤ 0 → h ≤ 0 → 300 < t + fuel * dt →
      ∃ tf hf vf ts' hs' vs' fs',
        simLoop sim expF dt fuel t h v ts hs vs fs m2 =
          SimOutcome.aborted tf hf vf ts' hs' vs' fs' ∧ tf ≤ 300 + dt ∧ hf ≤ 0 := by
  intro fuel
  induction fuel with
  | zero =>
    intro t h v ts hs vs fs m2 ht0 ht300 hv hh hfuel
    exfalso
    simp only [Nat.cast_zero, zero_mul, add_zero] at hfuel
    exact absurd hfuel (not_lt.2 ht300)
  | succ fuel ih =>
    intro t h v ts hs vs fs m2 ht0 ht300 hv hh hfuel
    have hmass : ∃ m, sim.massE t = Except.ok m ∧ 0 < m := by
      by_cases hle : t ≤ sim.burn_time
      · refine ⟨sim.m0 - sim.mp / sim.burn_time * t, ?_, ?_⟩
        · simp [RocketSimulator.massE, hle, hbt.ne']
        · have hfrac : sim.mp / sim.burn_time * t ≤ sim.mp := by
            rw [div_mul_eq_mul_div, div_le_iff₀ hbt]
            exact mul_le_mul_of_nonneg_left hle hmp
          linarith
      · refine ⟨sim.mf, ?_, hmf⟩
        simp [RocketSimulator.massE, hle]
    obtain ⟨m, hmE, hmpos⟩ := hmass
    simp only [simLoop, hmE]
    rw [if_neg hmpos.ne']
    rw [hth t, if_neg (not_lt.2 hv)]
    have ha : (0 - m * grav - 0) / m = -grav := by
      field_simp
      ring
    rw [ha]
    have hgrav : (0 : ℚ) < grav := by norm_num [grav]
    have hv' : v + -grav * dt ≤ 0 := by nlinarith
    have hh' : h + (v + -grav * dt) * dt ≤ 0 := by
      have := mul_nonpos_of_nonpos_of_nonneg hv' hdt.le
      linarith
    rw [if_neg (fun hc => absurd hc.2 (not_lt.2 hh'))]
    by_cases hsafe : 300 < t + dt ∨ h + (v + -grav * dt) * dt < -10
    · rw [if_pos hsafe]
      exact ⟨t + dt, _, _, _, _, _, _, rfl, by linarith, hh'⟩
    · rw [if_neg hsafe]
      push_neg at hsafe
      refine ih (t + dt) (h + (v + -grav * dt) * dt) (v + -grav * dt) _ _ _ _ _
        (by linarith) hsafe.1 hv' hh' ?_
      push_cast at hfuel
      linarith

/-- C9: for every motor profile whose thrust is zero at all times, with
a well-defined positive mass (burn_time > 0, mp ≥ 0, mf > 0,
m0 = mf + mp as the constructor guarantees) and dt > 0, the stepping
loop of `simulate` terminates in the ABORTED (safety-bound) state rather
than looping: the rocket never leaves the ground (final h ≤ 0) and the
final simulated time is bounded by the 300 s cutoff plus one step. -/
theorem simulate_zero_thrust_aborted (sim : RocketSimulator) (expF : ℚ → ℚ) (dt : ℚ)
    (hdt : 0 < dt) (hth : ∀ t, sim.thrust t = 0) (hbt : 0 < sim.burn_time)
    (hmp : 0 ≤ sim.mp) (hmf : 0 < sim.mf) (hm0 : sim.m0 = sim.mf + sim.mp) :
    ∃ tf hf vf ts hs vs fs,
      simulateO sim expF dt = SimOutcome.aborted tf hf vf ts hs vs fs ∧
      tf ≤ 300 + dt ∧ hf ≤ 0 := by
  have hceil : ((300 : ℚ) / dt) ≤ (⌈(300 : ℚ) / dt⌉ : ℚ) := Int.le_ceil _
  have hpos : (0 : ℚ) < 300 / dt := by positivity
  have hnn : (0 : ℤ) ≤ ⌈(300 : ℚ) / dt⌉ := (Int.ceil_pos.2 hpos).le
  have hcast : ((⌈(300 : ℚ) / dt⌉.toNat : ℕ) : ℚ) = ((⌈(300 : ℚ) / dt⌉ : ℤ) : ℚ) := by
    exact_mod_cast Int.toNat_of_nonneg hnn
  have hfuel : (300 : ℚ) < 0 + (fuelFor dt : ℚ) * dt := by
    have hdm : (300 : ℚ) / dt * dt = 300 := div_mul_cancel₀ _ hdt.ne'
    have h1 : (300 : ℚ) / dt * dt ≤ (⌈(300 : ℚ) / dt⌉ : ℚ) * dt :=
      mul_le_mul_of_nonneg_right hceil hdt.le
    have h2 : ((fuelFor dt : ℕ) : ℚ) = (⌈(300 : ℚ) / dt⌉ : ℚ) + 2 := by
      unfold fuelFor
      push_cast [hcast]
      ring
    rw [h2]
    nlinarith
  simp only [simulateO]
  exact simLoop_zero_thrust_aborts sim expF dt hdt hth hbt hmp hmf hm0 (fuelFor dt)
    0 0 0 [0] [0] [0] [sim.thrust 0] none le_rfl (by norm_num) le_rfl le_rfl hfuel

/-- C9 witness: a concrete zero-thrust motor (burn time 2 s, propellant
1 kg, dry mass 1 kg) with dt = 2 s ends in the aborted state. -/
theorem simulate_zero_thrust_aborted_witness :
    (simulateO (mkConstant 2 (5 / 100) (1 / 2) 0 2 1 3) (fun _ => 0) 2).isAborted = true := by
  obtain ⟨tf, hf, vf, ts, hs, vs, fs, heq, -, -⟩ :=
    simulate_zero_thrust_aborted (mkConstant 2 (5 / 100) (1 / 2) 0 2 1 3) (fun _ => 0) 2
      (by norm_num)
      (by
        intro t
        simp [RocketSimulator.thrust, mkConstant])
      (by norm_num [mkConstant]) (by norm_num [mkConstant]) (by norm_num [mkConstant])
      (by norm_num [mkConstant])
  rw [heq]
  rfl

/-- Helper: the series invariants of the stepping loop.  If the loop
state carries four series of equal length whose last time entry is the
current time, whose first entries are the initial records, and whose
times form a chain of exact dt increments, then any apogee result the
loop returns satisfies the same properties. -/
theorem simLoop_apogee_inv (sim : RocketSimulator) (expF : ℚ → ℚ) (dt : ℚ) :
    ∀ (fuel : ℕ) (t h v : ℚ) (ts hs vs fs : List ℚ) (m2 : Option (ℚ × ℚ)) (res : SimResult),
      simLoop sim expF dt fuel t h v ts hs vs fs m2 = SimOutcome.apogee res →
      ts.getLast? = some t →
      hs.length = ts.length → vs.length = ts.length → fs.length = ts.length →
      ts.head? = some 0 → hs.head? = some 0 → vs.head? = some 0 →
      fs.head? = some (sim.thrust 0) →
      List.Chain' (fun a b => b = a + dt) ts →
      res.heights.length = res.times.length ∧
      res.velocities.length = res.times.length ∧
      res.thrusts.length = res.times.length ∧
      res.times.head? = some 0 ∧ res.heights.head? = some 0 ∧
      res.velocities.head? = some 0 ∧ res.thrusts.head? = some (sim.thrust 0) ∧
      List.Chain' (fun a b => b = a + dt) res.times := by
  intro fuel
  induction fuel with
  | zero =>
    intro t h v ts hs vs fs m2 res heq
    simp [simLoop] at heq
  | succ fuel ih =>
    intro t h v ts hs vs fs m2 res heq hlast hlh hlv hlf hh0 hhh0 hhv0 hhf0 hchain
    have htsne : ts ≠ [] := by
      intro hnil
      rw [hnil] at hh0
      simp at hh0
    rcases hmE : sim.massE t with e | m
    · rw [simLoop, hmE] at heq
      simp at heq
    · simp only [simLoop, hmE] at heq
      by_cases hm : m = 0
      · rw [if_pos hm] at heq
        simp at heq
      · rw [if_neg hm] at heq
        set D := (if 0 < v then sim.drag_force expF v h else 0) with hD
        set v' := v + (sim.thrust t - m * grav - D) / m * dt with hv'def
        set h' := h + v' * dt with hh'def
        set m2' := (if m2.isNone = true ∧ 2 ≤ h' then some (v', t + dt) else m2) with hm2'def
        have hchain' : List.Chain' (fun a b => b = a + dt) (ts ++ [t + dt]) := by
          rw [List.chain'_append]
          refine ⟨hchain, List.chain'_singleton _, ?_⟩
          intro x hx y hy
          rw [hlast] at hx
          simp at hx hy
          rw [← hx, ← hy]
        split at heq
        · -- apogee break: the result is built from the appended series
          rw [SimOutcome.apogee.injEq] at heq
          subst heq
          refine ⟨?_, ?_, ?_, ?_, ?_, ?_, ?_, hchain'⟩ <;>
            simp [hlh, hlv, hlf, List.head?_append, hh0, hhh0, hhv0, hhf0]
        · split at heq
          · -- safety-bound break: not an apogee result
            simp at heq
          · -- loop continues: apply the induction hypothesis to the new state
            refine ih _ _ _ _ _ _ _ _ _ heq (List.getLast?_concat ts)
              (by simp [hlh]) (by simp [hlv]) (by simp [hlf])
              (by simp [List.head?_append, hh0])
              (by simp [List.head?_append, hhh0])
              (by simp [List.head?_append, hhv0])
              (by simp [List.head?_append, hhf0]) hchain'

/-- C10: every run of `simulate` that returns a result (the apogee-break
path, the only one whose `return` succeeds) yields four recorded series
of equal length whose first entries are the initial state t = 0, h = 0,
v = 0 with the thrust at t = 0, and whose times increase by exactly dt
at every subsequent entry. -/
theorem simulate_series_invariants (sim : RocketSimulator) (expF : ℚ → ℚ) (dt : ℚ)
    (res : SimResult) (hok : simulate sim expF dt = Except.ok res) :
    res.heights.length = res.times.length ∧
    res.velocities.length = res.times.length ∧
    res.thrusts.length = res.times.length ∧
    res.times.head? = some 0 ∧ res.heights.head? = some 0 ∧
    res.velocities.head? = some 0 ∧ res.thrusts.head? = some (sim.thrust 0) ∧
    List.Chain' (fun a b => b = a + dt) res.times := by
  have hO : simulateO sim expF dt = SimOutcome.apogee res := by
    unfold simulate at hok
    revert hok
    rcases simulateO sim expF dt with r | ⟨tf, hf, vf, ts1, hs1, vs1, fs1⟩ | _ | _ <;> intro hok
    · rw [Except.ok.injEq] at hok
      rw [hok]
    · simp at hok
    · simp at hok
    · simp at hok
  exact simLoop_apogee_inv sim expF dt (fuelFor dt) 0 0 0 [0] [0] [0] [sim.thrust 0]
    none res hO rfl rfl rfl rfl rfl rfl rfl rfl (List.chain'_singleton _)

/-- C10 witness: a concrete run (thrust 14.81 N for 0.5 s, dt = 1 s)
returns after three recorded samples with times 0, 1, 2 stepping by
exactly dt = 1. -/
theorem simulate_series_invariants_witness :
    List.Chain' (fun a b => b = a + 1) ([0, 1, 2] : List ℚ) := by
  have h := simulate_series_invariants (mkConstant 1 (6 / 100) 0 (1481 / 100) (1 / 2) 0 3)
    (fun _ => 1) 1
    ⟨19 / 100, 2, 5, 1, [0, 1, 2], [0, 5, 19 / 100], [0, 5, -481 / 100],
      [1481 / 100, 1481 / 100, 0]⟩ (by rfl)
  exact h.2.2.2.2.2.2.2

end ClaimTheorems
